import Mathlib

/-
Verification of the streaming conversation engine, UI state machine and
preference handling of the code-editing-agent repository.

The definitions below are a shallow embedding of the Go sources:
  - internal/agent/agent.go   (streaming ProcessMessage: the per-response
    part loop, tool dedup, confirmation gate, tool execution, token usage)
  - internal/tui/tui.go       (transcript insertion handlers, stream
    completion handler, bounded channel sends of handleStreamStart)
  - internal/config/preferences.go (post-parse preference defaulting)

Conventions: machine integers that only ever hold token counts are
modelled as Nat; Go `(value, error)` returns are modelled as Except;
the arguments map of a function call is modelled by its serialized
rendering (a String), which is what both the dedup key and the display
strings are built from in the source.
-/

namespace CodeAgent

/-- A function call decoded from a model response fragment
(genai.FunctionCall). `args` stands for the arguments map, modelled by
its serialized rendering: agent.go builds the dedup key with
fmt.Sprintf of the name and the args and the display strings with
json.Marshal of the same map, and we do not distinguish the two
renderings. -/
structure FunctionCall where
  name : String
  args : String
deriving DecidableEq

/-- The one-key response map carried in a genai.FunctionResponse:
either a result payload or an error payload (agent.go builds
map[string]interface with key "result" or key "error"). -/
inductive FuncResponseBody
  | resultVal (s : String)
  | errorVal (s : String)
deriving DecidableEq

/-- genai.FunctionResponse: the tool result part folded back into the
conversation. -/
structure FunctionResponse where
  name : String
  body : FuncResponseBody
deriving DecidableEq

/-- One part of a streamed candidate (genai.Part), restricted to the
fields agent.go reads or writes: Thought, Text, FunctionCall,
FunctionResponse. -/
structure Part where
  thought : Bool := false
  text : String := ""
  functionCall : Option FunctionCall := none
  functionResponse : Option FunctionResponse := none
deriving DecidableEq

/-- One candidate of a streamed chunk: its content parts and its finish
reason (candidate.Content.Parts and candidate.FinishReason). -/
structure Candidate where
  parts : List Part
  finishReason : String := "STOP"
deriving DecidableEq

/-- One streamed response chunk (genai.GenerateContentResponse):
agent.go only reads chunk.Candidates. -/
structure Chunk where
  candidates : List Candidate
deriving DecidableEq

/-- A role-tagged content block of the conversation (genai.Content). -/
structure Content where
  role : String
  parts : List Part
deriving DecidableEq

/-- MessageType of agent.go. -/
inductive MessageType
  | userMessage
  | agentMessage
  | toolMessage
  | streamChunk
  | thoughtMessage
deriving DecidableEq

/-- Message of agent.go. -/
structure EngineMessage where
  type : MessageType
  content : String
  isError : Bool := false
  isStream : Bool := false
deriving DecidableEq

/-- Result of the ToolConfirmationCallback: Go returns (bool, error);
`ok b` models a nil error with verdict b, `err m` models a non-nil
error with message m. -/
inductive ConfirmResult
  | ok (confirmed : Bool)
  | err (msg : String)
deriving DecidableEq

/-- The confirmation gate: ToolConfirmationCallback of agent.go. -/
def Gate : Type := FunctionCall → ConfirmResult

/-- ToolDefinition of agent.go: the registered name and the callable.
The callable takes the marshalled arguments and returns a result or an
error, as `func(ctx, json.RawMessage) (string, error)` does. -/
structure ToolDefinition where
  name : String
  description : String := ""
  fn : String → Except String String

/-- Registry lookup: the linear scan over a.tools in executeTool. -/
def lookupTool (tools : List ToolDefinition) (name : String) : Option ToolDefinition :=
  tools.find? (fun t => t.name == name)

/-- executeTool of agent.go: unknown tool is an error result; a tool
error is wrapped as "tool execution failed". -/
def executeTool (tools : List ToolDefinition) (name : String) (args : String) :
    Except String String :=
  match lookupTool tools name with
  | none => .error ("tool " ++ name ++ " not found")
  | some t =>
    match t.fn args with
    | .ok r => .ok r
    | .error e => .error ("tool execution failed: " ++ e)

/-- The dedup key of agent.go line 295:
fmt.Sprintf of the call name, a colon, and the rendered args. -/
def callKey (fc : FunctionCall) : String :=
  fc.name ++ ":" ++ fc.args

/-- The per-response accumulation state of ProcessMessage (agent.go
lines 234-237): emitted messages, the visible text accumulator, the
accumulated model parts, the pending tool results, and the processed
dedup keys. `invocations` is a ghost log recording each actual call of
a registered tool function, used to state the execution-count claims. -/
structure RespState where
  messages : List EngineMessage := []
  accumulatedText : String := ""
  accumulatedParts : List Part := []
  toolResults : List Part := []
  processed : List String := []
  invocations : List FunctionCall := []
deriving DecidableEq

/-- The initial per-response state (fresh accumulators and a fresh
processedToolCalls map, agent.go lines 234-237). -/
def initRespState : RespState := {}

/-- The thought message built at agent.go lines 276-279. -/
def mkThoughtMessage (t : String) : EngineMessage :=
  { type := .thoughtMessage, content := "💭 Thinking: " ++ t }

/-- Text handling of agent.go lines 377-392: non-empty part text is
appended to the accumulator and emitted as a stream-chunk message. -/
def handleText (st : RespState) (p : Part) : RespState :=
  if p.text ≠ "" then
    { st with
      accumulatedText := st.accumulatedText ++ p.text,
      messages := st.messages ++ [{ type := .streamChunk, content := p.text, isStream := true }] }
  else st

/-- The display string of an executed tool call (agent.go lines 342-350). -/
def toolCallInfo (fc : FunctionCall) : Except String String → String
  | .error e => "🔧 Tool Call: " ++ fc.name ++ "\nArguments: " ++ fc.args ++ "\nError: " ++ e
  | .ok r => "🔧 Tool Call: " ++ fc.name ++ "\nArguments: " ++ fc.args ++ "\nResult: " ++ r

/-- Tool execution step of agent.go lines 335-372: run executeTool,
emit a tool message (error-flagged on failure), and append a
FunctionResponse with key "result" (an error is rendered into the
result string). The ghost `invocations` log records the call exactly
when the registry lookup succeeded, i.e. when the tool's function was
actually applied. -/
def invokeTool (tools : List ToolDefinition) (st : RespState) (fc : FunctionCall) : RespState :=
  let res := executeTool tools fc.name fc.args
  let resultStr := match res with
    | .error e => "Error: " ++ e
    | .ok r => r
  { st with
    messages := st.messages ++
      [{ type := .toolMessage, content := toolCallInfo fc res,
         isError := match res with | .error _ => true | .ok _ => false }],
    toolResults := st.toolResults ++
      [{ functionResponse := some { name := fc.name, body := .resultVal resultStr } }],
    invocations := st.invocations ++
      (if (lookupTool tools fc.name).isSome then [fc] else []) }

/-- The rejection tool message of agent.go lines 307-315. -/
def rejectionMessage (fc : FunctionCall) : EngineMessage :=
  { type := .toolMessage,
    content := "🚫 Tool Call Rejected: " ++ fc.name ++ "\nArguments: " ++ fc.args ++
      "\nReason: User denied execution",
    isError := true }

/-- The rejection FunctionResponse of agent.go lines 325-330: response
map with key "error". -/
def rejectionResponse (fc : FunctionCall) : Part :=
  { functionResponse := some { name := fc.name, body := .errorVal "User denied tool execution" } }

/-- The denial branch of agent.go lines 305-331: emit the error-flagged
tool message and queue the rejection response; the part loop then
continues (so the part's text, if any, is not processed). -/
def rejectCall (st : RespState) (fc : FunctionCall) : RespState :=
  { st with
    messages := st.messages ++ [rejectionMessage fc],
    toolResults := st.toolResults ++ [rejectionResponse fc] }

/-- Processing of one part of a candidate, agent.go lines 273-394:
thought parts short-circuit to the thought callback; function calls are
deduplicated by callKey, then gated (a gate error aborts the turn, a
denial queues a rejection and skips the rest of the part), then
executed; finally non-empty text is accumulated and streamed. -/
def processPart (tools : List ToolDefinition) (gate : Option Gate) (st : RespState)
    (p : Part) : Except String RespState :=
  if p.thought = true ∧ p.text ≠ "" then
    .ok { st with messages := st.messages ++ [mkThoughtMessage p.text] }
  else
    match p.functionCall with
    | none => .ok (handleText st p)
    | some fc =>
      if callKey fc ∈ st.processed then .ok (handleText st p)
      else
        match gate with
        | none =>
          .ok (handleText
            (invokeTool tools { st with processed := st.processed ++ [callKey fc] } fc) p)
        | some g =>
          match g fc with
          | .err m => .error ("confirmation error: " ++ m)
          | .ok false => .ok (rejectCall { st with processed := st.processed ++ [callKey fc] } fc)
          | .ok true =>
            .ok (handleText
              (invokeTool tools { st with processed := st.processed ++ [callKey fc] } fc) p)

/-- The inner part loop of agent.go (for _, part := range candidate.Content.Parts). -/
def processParts (tools : List ToolDefinition) (gate : Option Gate) (st : RespState) :
    List Part → Except String RespState
  | [] => .ok st
  | p :: ps =>
    match processPart tools gate st p with
    | .error e => .error e
    | .ok st1 => processParts tools gate st1 ps

/-- The error-flagged agent messages emitted for a non-normal finish
reason (agent.go lines 252-268). -/
def finishReasonMessages (fr : String) : List EngineMessage :=
  if fr ≠ "" ∧ fr ≠ "STOP" then
    if fr = "MAX_TOKENS" then
      [{ type := .agentMessage, content := "\n\n[Response truncated due to length limit]",
         isError := true }]
    else if fr = "SAFETY" then
      [{ type := .agentMessage, content := "\n\n[Response blocked by safety filters]",
         isError := true }]
    else []
  else []

/-- Processing of one streamed chunk, agent.go lines 245-270: a chunk
with zero candidates is skipped (continue); otherwise the first
candidate's finish reason is checked, ALL its parts are appended to
accumulatedParts, and the parts are processed in order. -/
def processChunk (tools : List ToolDefinition) (gate : Option Gate) (st : RespState)
    (c : Chunk) : Except String RespState :=
  match c.candidates with
  | [] => .ok st
  | cand :: _ =>
    processParts tools gate
      { st with
        messages := st.messages ++ finishReasonMessages cand.finishReason,
        accumulatedParts := st.accumulatedParts ++ cand.parts }
      cand.parts

/-- One item of the streamed response sequence: iter.Seq2 yields a
chunk or a stream error. -/
abbrev StreamItem := Except String Chunk

/-- The streaming loop of agent.go lines 240-395: a stream error aborts
the turn; chunks are processed in order. -/
def processStream (tools : List ToolDefinition) (gate : Option Gate) (st : RespState) :
    List StreamItem → Except String RespState
  | [] => .ok st
  | .error e :: _ => .error ("streaming error: " ++ e)
  | .ok c :: rest =>
    match processChunk tools gate st c with
    | .error e => .error e
    | .ok st1 => processStream tools gate st1 rest

/-- End of one response round, agent.go lines 397-418: the accumulated
model parts are appended to the conversation as a model block; if tool
results are pending they are appended as a user block and the loop
continues (Bool result true). -/
def finishRound (conv : List Content) (st : RespState) : List Content × Bool :=
  let conv1 := conv ++ [{ role := "model", parts := st.accumulatedParts }]
  if st.toolResults.length > 0 then
    (conv1 ++ [{ role := "user", parts := st.toolResults }], true)
  else (conv1, false)

/-- The function calls a part list submits to the call handler: parts
taken in order, skipping thought parts (which continue before the
function-call handling). -/
def partCalls : List Part → List FunctionCall
  | [] => []
  | p :: ps =>
    (if p.thought = true ∧ p.text ≠ "" then []
     else
       match p.functionCall with
       | none => []
       | some fc => [fc]) ++ partCalls ps

/-- The function calls of one chunk (only the first candidate is read). -/
def chunkCalls (c : Chunk) : List FunctionCall :=
  match c.candidates with
  | [] => []
  | cand :: _ => partCalls cand.parts

/-- All function calls of a streamed response. -/
def streamCalls : List StreamItem → List FunctionCall
  | [] => []
  | .error _ :: rest => streamCalls rest
  | .ok c :: rest => chunkCalls c ++ streamCalls rest

/-- Whether the gate approves a call: a nil callback auto-approves
(agent.go line 300); otherwise the callback must return (true, nil). -/
def gateApprovesB (gate : Option Gate) (fc : FunctionCall) : Bool :=
  match gate with
  | none => true
  | some g => decide (g fc = ConfirmResult.ok true)

/-- Whether an Except result is an aborted turn. -/
def turnAborts : Except String RespState → Bool
  | .error _ => true
  | .ok _ => false

/-- Dedup invariant tying the ghost invocation log to the processed-key
set: every invoked call left its key in processedToolCalls, and no two
logged invocations share a key. -/
def KeyInv (st : RespState) : Prop :=
  (∀ fc ∈ st.invocations, callKey fc ∈ st.processed)
  ∧ (st.invocations.map callKey).Nodup

/-- The outcome of the UI confirmation callback when the 30-second wait
elapses with no user input (tui.go handleStreamStart, the second select
of the confirmation callback): it returns false together with a non-nil
error. -/
def confirmationTimeoutResult : ConfirmResult :=
  .err "timeout waiting for user confirmation"

/-- TokenUsage of agent.go. Token counts are modelled as Nat. -/
structure TokenUsage where
  inputTokens : Nat := 0
  outputTokens : Nat := 0
  totalTokens : Nat := 0
deriving DecidableEq

/-- The zero TokenUsage (agent construction and ResetTokenUsage). -/
def initTokenUsage : TokenUsage := {}

/-- The operations that mutate TokenUsage: the input-count increment
(agent.go lines 227-230), the output-count increment (lines 405-408),
and ResetTokenUsage (also reached through ClearConversation). -/
inductive TokenOp
  | recordInput (n : Nat)
  | recordOutput (n : Nat)
  | reset
deriving DecidableEq

/-- Apply one TokenUsage mutation as the source performs it. -/
def applyTokenOp : TokenUsage → TokenOp → TokenUsage
  | u, .recordInput n =>
    { u with inputTokens := u.inputTokens + n, totalTokens := u.totalTokens + n }
  | u, .recordOutput n =>
    { u with outputTokens := u.outputTokens + n, totalTokens := u.totalTokens + n }
  | _, .reset => {}

/-- Apply a sequence of TokenUsage mutations. -/
def applyTokenOps (u : TokenUsage) (ops : List TokenOp) : TokenUsage :=
  ops.foldl applyTokenOp u

/-- Sum of the recorded input and output increments of a sequence. -/
def opsIncrement : List TokenOp → Nat
  | [] => 0
  | .recordInput n :: rest => n + opsIncrement rest
  | .recordOutput n :: rest => n + opsIncrement rest
  | .reset :: rest => opsIncrement rest

/-- UserPreferences of preferences.go. -/
structure UserPreferences where
  selectedModel : String
  requireToolConfirmation : Bool
  enableThinkingMode : Bool
deriving DecidableEq

/-- The post-parse defaulting of LoadPreferences (preferences.go lines
53-57): a parsed struct with confirmation false, empty model and
thinking off has its confirmation flag forced to true. -/
def normalizeLoadedPreferences (p : UserPreferences) : UserPreferences :=
  if p.requireToolConfirmation = false ∧ p.selectedModel = "" ∧ p.enableThinkingMode = false then
    { p with requireToolConfirmation := true }
  else p

/-- SavePreferences writes the marshalled struct and LoadPreferences
parses it back; encoding/json round-trips the three tagged fields (the
omitempty tag on selected_model drops an empty string and unmarshal
restores it as the zero value), after which the post-parse defaulting
of lines 53-57 is applied. -/
def loadAfterSave (p : UserPreferences) : UserPreferences :=
  normalizeLoadedPreferences p

/-- messageType of tui.go. -/
inductive TMsgType
  | userMessage
  | agentMessage
  | toolMessage
  | streamChunk
  | thoughtMessage
deriving DecidableEq

/-- A transcript entry (message struct of tui.go). -/
structure TranscriptMessage where
  mType : TMsgType
  content : String
  isCollapsed : Bool := false
  isError : Bool := false
  isStreaming : Bool := false
deriving DecidableEq

/-- The UI model state touched by the transcript handlers of tui.go:
the message list, the in-progress streaming message and its tracked
index (-1 when none), the interruption flag and the spinner flag.
The index is Go int, modelled as Int with -1 as the sentinel. -/
structure UiModel where
  messages : List TranscriptMessage := []
  streamingMsg : Option TranscriptMessage := none
  streamingMsgIndex : Int := -1
  streamingWasInterrupted : Bool := false
  showSpinner : Bool := false
deriving DecidableEq

/-- The transcript entry built by handleToolMessage (tui.go lines
655-660): collapsed tool message carrying the payload's error flag. -/
def toolEntry (msg : EngineMessage) : TranscriptMessage :=
  { mType := .toolMessage, content := msg.content, isCollapsed := true, isError := msg.isError }

/-- The transcript entry built by handleThoughtMessage (tui.go lines
693-698). -/
def thoughtEntry (msg : EngineMessage) : TranscriptMessage :=
  { mType := .thoughtMessage, content := msg.content, isCollapsed := true, isError := msg.isError }

/-- The shared insertion logic of handleToolMessage and
handleThoughtMessage (tui.go lines 662-676 and 700-714, duplicated
verbatim in the source): mark the stream interrupted when a non-empty
streaming message exists; if a streaming message is tracked
(index different from -1), insert the new entry at the streaming
message's position and advance the tracked index, otherwise append. -/
def insertTranscript (m : UiModel) (entry : TranscriptMessage) : UiModel :=
  let interrupted :=
    match m.streamingMsg with
    | some s => if s.content ≠ "" then true else m.streamingWasInterrupted
    | none => m.streamingWasInterrupted
  if m.streamingMsgIndex ≠ -1 then
    { m with
      messages := m.messages.take m.streamingMsgIndex.toNat ++ [entry] ++
        m.messages.drop m.streamingMsgIndex.toNat,
      streamingMsgIndex := m.streamingMsgIndex + 1,
      streamingWasInterrupted := interrupted }
  else
    { m with
      messages := m.messages ++ [entry],
      streamingWasInterrupted := interrupted }

/-- handleToolMessage of tui.go. -/
def handleToolMessage (m : UiModel) (msg : EngineMessage) : UiModel :=
  insertTranscript m (toolEntry msg)

/-- handleThoughtMessage of tui.go. -/
def handleThoughtMessage (m : UiModel) (msg : EngineMessage) : UiModel :=
  insertTranscript m (thoughtEntry msg)

/-- The transcript entry (if any) that handleStreamComplete appends for
one payload message (tui.go lines 780-800): stream chunks and tool
messages are skipped, agent messages are appended only when
error-flagged, and every other type falls through the switch. -/
def completionEntryOfAgent (am : EngineMessage) : Option TranscriptMessage :=
  match am.type with
  | .streamChunk => none
  | .toolMessage => none
  | .agentMessage =>
    if am.isError then
      some { mType := .agentMessage, content := am.content, isError := am.isError }
    else none
  | .userMessage => none
  | .thoughtMessage => none

/-- handleStreamComplete of tui.go lines 763-805: stop the spinner,
finalize the streaming message when one exists (the isStreaming write
lands on the heap copy behind the pointer, not on the list entry, so
the message list itself is unchanged by finalization), reset the
interruption flag, and append the error-flagged agent messages of the
terminal payload. -/
def handleStreamComplete (m : UiModel) (payload : List EngineMessage) : UiModel :=
  let m1 :=
    match m.streamingMsg with
    | some _ => { m with streamingMsg := none, streamingMsgIndex := -1 }
    | none => m
  { m1 with
    showSpinner := false,
    streamingWasInterrupted := false,
    messages := m1.messages ++ payload.filterMap completionEntryOfAgent }

/-- Capacity of streamChunkChan (tui.go line 168). -/
def streamChunkChanCap : Nat := 100

/-- Capacity of toolMessageChan (tui.go line 169). -/
def toolMessageChanCap : Nat := 10

/-- Capacity of thoughtMessageChan (tui.go line 170). -/
def thoughtMessageChanCap : Nat := 10

/-- Outcome of one channel send attempt by the background goroutine. -/
inductive SendOutcome (α : Type)
  | sent (queue : List α)
  | ctxAborted
  | blocked
deriving DecidableEq

/-- The select statement of sendQueuedMessages (tui.go lines 528-549):
one case sending on the bounded channel, one case on ctx.Done(), and NO
default case. When the buffer has space the send proceeds; when the
buffer is full and the context is done, the done case fires and the
batch is abandoned; when the buffer is full and the context is live, no
case is ready and the select blocks the goroutine. (When both cases are
ready Go picks one at random; this model prioritizes the send, which
does not affect the full-buffer behavior.) -/
def channelSend {α : Type} (cap : Nat) (q : List α) (x : α) (ctxDone : Bool) :
    SendOutcome α :=
  if q.length < cap then .sent (q ++ [x])
  else if ctxDone then .ctxAborted
  else .blocked

/-- Outcome of a channel send under the specification's policy. -/
inductive SpecSendOutcome (α : Type)
  | sent (queue : List α)
  | dropped
deriving DecidableEq

/-- Modelled from the spec: the Streaming Bridge back-pressure policy
of spec section 4.3, under which an event finding its destination queue
full is dropped rather than blocking the Engine. Present only to be
compared with channelSend, the embedding of the source's select. -/
def specDropOnFullSend {α : Type} (cap : Nat) (q : List α) (x : α) : SpecSendOutcome α :=
  if q.length < cap then .sent (q ++ [x])
  else .dropped

/-- A registry with one tool, used for concrete runs. -/
def demoTools : List ToolDefinition :=
  [{ name := "list", description := "list files", fn := fun _ => .ok "two entries" }]

/-- A concrete function call against the demo registry. -/
def demoFc : FunctionCall := { name := "list", args := "x" }

/-- A part carrying the demo function call. -/
def demoCallPart : Part := { functionCall := some demoFc }

/-- A streamed response repeating the identical function call across
two fragments. -/
def demoRepeatItems : List StreamItem :=
  [Except.ok { candidates := [{ parts := [demoCallPart] }] },
   Except.ok { candidates := [{ parts := [demoCallPart] }] }]

/-- A streamed response containing a single function-call part. -/
def demoCallItems : List StreamItem :=
  [Except.ok { candidates := [{ parts := [demoCallPart] }] }]

/-- The gate in the state reached when the 30-second confirmation wait
elapsed: every request reports the timeout outcome of tui.go. -/
def timeoutGate : Gate := fun _ => confirmationTimeoutResult

/-- A chunk carrying zero candidates. -/
def emptyChunk : Chunk := { candidates := [] }

/-- A thought part with non-empty text. -/
def demoThoughtPart : Part := { thought := true, text := "t" }

/-- A chunk whose only candidate carries the thought part. -/
def demoThoughtChunk : Chunk := { candidates := [{ parts := [demoThoughtPart] }] }

/-- A streamed response consisting of one thought part. -/
def demoThoughtItems : List StreamItem := [Except.ok demoThoughtChunk]

/-- The per-response state reached by processing demoThoughtItems. -/
def demoThoughtResult : RespState :=
  (processStream demoTools none initRespState demoThoughtItems).toOption.getD initRespState

/-- A tool event as queued by the tool callback. -/
def demoToolEvent : EngineMessage := { type := .toolMessage, content := "t" }

/-- A UI model with no in-progress streaming message. -/
def demoUiModel : UiModel := { showSpinner := true }

/-- An in-progress streaming transcript entry. -/
def demoStreamingEntry : TranscriptMessage :=
  { mType := .agentMessage, content := "Hel", isStreaming := true }

/-- A UI model whose streaming message is in progress at index 1. -/
def demoStreamingModel : UiModel :=
  { messages := [{ mType := .userMessage, content := "hi" }, demoStreamingEntry],
    streamingMsg := some demoStreamingEntry,
    streamingMsgIndex := 1,
    showSpinner := true }

/-- A terminal payload carrying one error-flagged agent message, as
built by the background goroutine when ProcessMessage fails. -/
def demoErrorPayload : List EngineMessage :=
  [{ type := .agentMessage, content := "Error: boom", isError := true }]

/-- Balance invariant of the token counters: every mutation keeps
totalTokens equal to inputTokens plus outputTokens, since the two
increment sites bump the total together with the respective counter and
ResetTokenUsage zeroes all three. -/
theorem applyTokenOps_balance (ops : List TokenOp) (u : TokenUsage)
    (hbal : u.totalTokens = u.inputTokens + u.outputTokens) :
    (applyTokenOps u ops).totalTokens =
      (applyTokenOps u ops).inputTokens + (applyTokenOps u ops).outputTokens := by
  induction ops generalizing u with
  | nil => exact hbal
  | cons op ops ih =>
    cases op with
    | recordInput n => exact ih _ (by simp [applyTokenOp]; omega)
    | recordOutput n => exact ih _ (by simp [applyTokenOp]; omega)
    | reset => exact ih _ (by simp [applyTokenOp, initTokenUsage])

/-- Without ResetTokenUsage, the total is the starting total plus the
sum of all recorded increments. -/
theorem applyTokenOps_total_noReset (ops : List TokenOp) (u : TokenUsage)
    (hnr : ∀ op ∈ ops, op ≠ TokenOp.reset) :
    (applyTokenOps u ops).totalTokens = u.totalTokens + opsIncrement ops := by
  induction ops generalizing u with
  | nil => simp [applyTokenOps, opsIncrement]
  | cons op ops ih =>
    have hops : ∀ o ∈ ops, o ≠ TokenOp.reset :=
      fun o ho => hnr o (List.mem_cons_of_mem _ ho)
    cases op with
    | recordInput n =>
      have h := ih (applyTokenOp u (TokenOp.recordInput n)) hops
      simp only [applyTokenOps, List.foldl_cons] at h ⊢
      rw [h]
      simp [applyTokenOp, opsIncrement]
      omega
    | recordOutput n =>
      have h := ih (applyTokenOp u (TokenOp.recordOutput n)) hops
      simp only [applyTokenOps, List.foldl_cons] at h ⊢
      rw [h]
      simp [applyTokenOp, opsIncrement]
      omega
    | reset => exact absurd rfl (hnr TokenOp.reset (List.mem_cons_self _ _))

/-- Unfolding of the part loop on a cons cell. -/
theorem processParts_cons (tools : List ToolDefinition) (gate : Option Gate)
    (st : RespState) (p : Part) (ps : List Part) :
    processParts tools gate st (p :: ps) =
      match processPart tools gate st p with
      | .error e => .error e
      | .ok st1 => processParts tools gate st1 ps := rfl

/-- Unfolding of the chunk loop on an ok chunk. -/
theorem processStream_cons_ok (tools : List ToolDefinition) (gate : Option Gate)
    (st : RespState) (c : Chunk) (rest : List StreamItem) :
    processStream tools gate st (Except.ok c :: rest) =
      match processChunk tools gate st c with
      | .error e => .error e
      | .ok st1 => processStream tools gate st1 rest := rfl

/-- handleText leaves the dedup keys, the invocation log, the tool
results and the accumulated parts untouched. -/
theorem handleText_preserves (st : RespState) (p : Part) :
    (handleText st p).processed = st.processed
    ∧ (handleText st p).invocations = st.invocations
    ∧ (handleText st p).toolResults = st.toolResults
    ∧ (handleText st p).accumulatedParts = st.accumulatedParts := by
  unfold handleText
  split <;> exact ⟨rfl, rfl, rfl, rfl⟩

/-- Characterization of one part-processing step: either the step left
the dedup keys and the invocation log unchanged (thought part, no
function call, or a dedup hit, in which case the key was already
recorded), or it handled a fresh function call, recorded its key, and
invoked the tool function exactly when the gate approved and the name
resolved in the registry. -/
theorem processPart_char (tools : List ToolDefinition) (gate : Option Gate)
    (st st' : RespState) (p : Part)
    (h : processPart tools gate st p = .ok st') :
    (st'.processed = st.processed ∧ st'.invocations = st.invocations
      ∧ st'.accumulatedParts = st.accumulatedParts
      ∧ (∀ fc : FunctionCall, ¬(p.thought = true ∧ p.text ≠ "") →
          p.functionCall = some fc → callKey fc ∈ st.processed))
    ∨ (∃ fc : FunctionCall,
        p.functionCall = some fc
        ∧ ¬(p.thought = true ∧ p.text ≠ "")
        ∧ callKey fc ∉ st.processed
        ∧ st'.processed = st.processed ++ [callKey fc]
        ∧ st'.accumulatedParts = st.accumulatedParts
        ∧ ((gateApprovesB gate fc = true
            ∧ st'.invocations = st.invocations ++
                (if (lookupTool tools fc.name).isSome then [fc] else []))
          ∨ (gateApprovesB gate fc = false ∧ st'.invocations = st.invocations))) := by
  unfold processPart at h
  split at h
  next hT =>
    injection h with h
    subst h
    exact Or.inl ⟨rfl, rfl, rfl, fun fc hnT _ => absurd hT hnT⟩
  next hT =>
    split at h
    next hfc =>
      injection h with h
      subst h
      refine Or.inl ⟨(handleText_preserves st p).1, (handleText_preserves st p).2.1,
        (handleText_preserves st p).2.2.2, ?_⟩
      intro fc _ hsome
      rw [hfc] at hsome
      exact Option.noConfusion hsome
    next fc hfc =>
      split at h
      next hk =>
        injection h with h
        subst h
        refine Or.inl ⟨(handleText_preserves st p).1, (handleText_preserves st p).2.1,
          (handleText_preserves st p).2.2.2, ?_⟩
        intro fc0 _ hsome
        rw [hfc] at hsome
        injection hsome with hsome
        subst hsome
        exact hk
      next hk =>
        split at h
        next =>
          injection h with h
          subst h
          refine Or.inr ⟨fc, hfc, hT, hk, ?_, ?_, Or.inl ⟨rfl, ?_⟩⟩
          · exact (handleText_preserves _ _).1
          · exact (handleText_preserves _ _).2.2.2
          · exact (handleText_preserves _ _).2.1
        next g =>
          split at h
          next m hgfc =>
            exact Except.noConfusion h
          next hgfc =>
            injection h with h
            subst h
            refine Or.inr ⟨fc, hfc, hT, hk, rfl, rfl, Or.inr ⟨?_, rfl⟩⟩
            simp [gateApprovesB, hgfc]
          next hgfc =>
            injection h with h
            subst h
            refine Or.inr ⟨fc, hfc, hT, hk, ?_, ?_, Or.inl ⟨?_, ?_⟩⟩
            · exact (handleText_preserves _ _).1
            · exact (handleText_preserves _ _).2.2.2
            · simp [gateApprovesB, hgfc]
            · exact (handleText_preserves _ _).2.1

/-- Monotonicity of the part loop: dedup keys and invocations only
grow, accumulated parts are untouched by part handling. -/
theorem processParts_mono (tools : List ToolDefinition) (gate : Option Gate) :
    ∀ (ps : List Part) (st st' : RespState),
      processParts tools gate st ps = .ok st' →
      (∀ k ∈ st.processed, k ∈ st'.processed)
      ∧ (∀ fc ∈ st.invocations, fc ∈ st'.invocations)
      ∧ st'.accumulatedParts = st.accumulatedParts := by
  intro ps
  induction ps with
  | nil =>
    intro st st' h
    injection h with h
    subst h
    exact ⟨fun _ hk => hk, fun _ hk => hk, rfl⟩
  | cons p ps ih =>
    intro st st' h
    rw [processParts_cons] at h
    cases hp : processPart tools gate st p with
    | error e =>
      simp only [hp] at h
      exact Except.noConfusion h
    | ok st1 =>
      simp only [hp] at h
      obtain ⟨ih1, ih2, ih3⟩ := ih st1 st' h
      rcases processPart_char tools gate st st1 p hp with
        ⟨hpr, hinv, hacc, _⟩ | ⟨fc, _, _, _, hpr, hacc, hinvs⟩
      · exact ⟨fun k hk => ih1 k (hpr ▸ hk), fun x hx => ih2 x (hinv ▸ hx),
          by rw [ih3, hacc]⟩
      · refine ⟨fun k hk => ih1 k ?_, fun x hx => ih2 x ?_, by rw [ih3, hacc]⟩
        · rw [hpr]
          exact List.mem_append_left _ hk
        · rcases hinvs with ⟨_, hi⟩ | ⟨_, hi⟩
          · rw [hi]
            exact List.mem_append_left _ hx
          · rw [hi]
            exact hx

/-- Every call a part list submits to the handler leaves its dedup key
in processedToolCalls. -/
theorem processParts_seen (tools : List ToolDefinition) (gate : Option Gate) :
    ∀ (ps : List Part) (st st' : RespState),
      processParts tools gate st ps = .ok st' →
      ∀ fc ∈ partCalls ps, callKey fc ∈ st'.processed := by
  intro ps
  induction ps with
  | nil =>
    intro st st' _ fc hfc
    exact absurd hfc (List.not_mem_nil fc)
  | cons p ps ih =>
    intro st st' h fc hfc
    rw [processParts_cons] at h
    cases hp : processPart tools gate st p with
    | error e =>
      simp only [hp] at h
      exact Except.noConfusion h
    | ok st1 =>
      simp only [hp] at h
      simp only [partCalls] at hfc
      rcases List.mem_append.mp hfc with hhead | htail
      · by_cases hT : p.thought = true ∧ p.text ≠ ""
        · rw [if_pos hT] at hhead
          exact absurd hhead (List.not_mem_nil fc)
        · rw [if_neg hT] at hhead
          cases hfc2 : p.functionCall with
          | none =>
            rw [hfc2] at hhead
            exact absurd hhead (List.not_mem_nil fc)
          | some fc0 =>
            rw [hfc2] at hhead
            have he : fc = fc0 := List.mem_singleton.mp hhead
            subst he
            rcases processPart_char tools gate st st1 p hp with
              ⟨hpr, _, _, hkeyIn⟩ | ⟨fc1, hsome1, _, _, hpr, _, _⟩
            · have hin : callKey fc ∈ st.processed := hkeyIn fc hT hfc2
              exact (processParts_mono tools gate ps st1 st' h).1 _ (by rw [hpr]; exact hin)
            · rw [hfc2] at hsome1
              injection hsome1 with he1
              subst he1
              refine (processParts_mono tools gate ps st1 st' h).1 _ ?_
              rw [hpr]
              exact List.mem_append_right _ (List.mem_singleton_self _)
      · exact ih st1 st' h fc htail

/-- Resolution of a recorded dedup key: either it was already recorded
before the part list ran, or some call of the list carries it, and that
call was invoked whenever the gate approved it and its name resolved in
the registry. -/
theorem processParts_resolve (tools : List ToolDefinition) (gate : Option Gate) :
    ∀ (ps : List Part) (st st' : RespState),
      processParts tools gate st ps = .ok st' →
      ∀ k ∈ st'.processed,
        k ∈ st.processed
        ∨ ∃ fc, fc ∈ partCalls ps ∧ callKey fc = k
            ∧ (gateApprovesB gate fc = true →
               (lookupTool tools fc.name).isSome = true →
               fc ∈ st'.invocations) := by
  intro ps
  induction ps with
  | nil =>
    intro st st' h k hk
    injection h with h
    subst h
    exact Or.inl hk
  | cons p ps ih =>
    intro st st' h k hk
    rw [processParts_cons] at h
    cases hp : processPart tools gate st p with
    | error e =>
      simp only [hp] at h
      exact Except.noConfusion h
    | ok st1 =>
      simp only [hp] at h
      rcases ih st1 st' h k hk with h1 | ⟨fc, hfcmem, hkey, himp⟩
      · rcases processPart_char tools gate st st1 p hp with
          ⟨hpr, _, _, _⟩ | ⟨fc, hsome, hT, _, hpr, _, hinvs⟩
        · exact Or.inl (hpr ▸ h1)
        · rw [hpr] at h1
          rcases List.mem_append.mp h1 with h2 | h2
          · exact Or.inl h2
          · have hkk : callKey fc = k := (List.mem_singleton.mp h2).symm
            refine Or.inr ⟨fc, ?_, hkk, ?_⟩
            · simp only [partCalls]
              apply List.mem_append_left
              rw [if_neg hT, hsome]
              exact List.mem_singleton_self fc
            · intro happ hlook
              rcases hinvs with ⟨_, hi⟩ | ⟨hfalse, _⟩
              · refine (processParts_mono tools gate ps st1 st' h).2.1 _ ?_
                rw [hi, if_pos hlook]
                exact List.mem_append_right _ (List.mem_singleton_self _)
              · rw [hfalse] at happ
                exact Bool.noConfusion happ
      · refine Or.inr ⟨fc, ?_, hkey, himp⟩
        simp only [partCalls]
        exact List.mem_append_right _ hfcmem

/-- One part-processing step preserves the dedup invariant. -/
theorem processPart_keyInv (tools : List ToolDefinition) (gate : Option Gate)
    (st st' : RespState) (p : Part)
    (hKI : KeyInv st) (h : processPart tools gate st p = .ok st') : KeyInv st' := by
  obtain ⟨h1, h2⟩ := hKI
  rcases processPart_char tools gate st st' p h with
    ⟨hpr, hinv, _, _⟩ | ⟨fc, _, _, hknotin, hpr, _, hinvs⟩
  · exact ⟨fun x hx => hpr ▸ h1 x (hinv ▸ hx), hinv ▸ h2⟩
  · rcases hinvs with ⟨_, hi⟩ | ⟨_, hi⟩
    · constructor
      · intro x hx
        rw [hi] at hx
        rw [hpr]
        rcases List.mem_append.mp hx with hx | hx
        · exact List.mem_append_left _ (h1 x hx)
        · have hxfc : x = fc := by
            by_cases hl : (lookupTool tools fc.name).isSome = true
            · rw [if_pos hl] at hx
              exact List.mem_singleton.mp hx
            · rw [if_neg hl] at hx
              exact absurd hx (List.not_mem_nil x)
          subst hxfc
          exact List.mem_append_right _ (List.mem_singleton_self _)
      · rw [hi, List.map_append]
        by_cases hl : (lookupTool tools fc.name).isSome = true
        · rw [if_pos hl]
          rw [List.nodup_append]
          refine ⟨h2, by simp, ?_⟩
          intro a ha hb
          have hafc : a = callKey fc := by simpa using hb
          subst hafc
          rcases List.mem_map.mp ha with ⟨x, hx, hxk⟩
          exact hknotin (hxk ▸ h1 x hx)
        · rw [if_neg hl]
          simpa using h2
    · exact ⟨fun x hx => by rw [hpr]; exact List.mem_append_left _ (h1 x (hi ▸ hx)), hi ▸ h2⟩

/-- The part loop preserves the dedup invariant. -/
theorem processParts_keyInv (tools : List ToolDefinition) (gate : Option Gate) :
    ∀ (ps : List Part) (st st' : RespState),
      KeyInv st → processParts tools gate st ps = .ok st' → KeyInv st' := by
  intro ps
  induction ps with
  | nil =>
    intro st st' hKI h
    injection h with h
    subst h
    exact hKI
  | cons p ps ih =>
    intro st st' hKI h
    rw [processParts_cons] at h
    cases hp : processPart tools gate st p with
    | error e =>
      simp only [hp] at h
      exact Except.noConfusion h
    | ok st1 =>
      simp only [hp] at h
      exact ih st1 st' (processPart_keyInv tools gate st st1 p hKI hp) h

/-- Case analysis of one chunk-processing step: a zero-candidate chunk
is skipped, otherwise the first candidate's parts are run from the
state with the finish-reason messages and the accumulated parts
appended (which leaves dedup keys and invocations unchanged). -/
theorem processChunk_cases (tools : List ToolDefinition) (gate : Option Gate)
    (st : RespState) (c : Chunk) :
    (c.candidates = [] ∧ chunkCalls c = [] ∧ processChunk tools gate st c = .ok st)
    ∨ ∃ cand rest, c.candidates = cand :: rest
        ∧ chunkCalls c = partCalls cand.parts
        ∧ processChunk tools gate st c =
          processParts tools gate
            { st with
              messages := st.messages ++ finishReasonMessages cand.finishReason,
              accumulatedParts := st.accumulatedParts ++ cand.parts }
            cand.parts := by
  cases hc : c.candidates with
  | nil => exact Or.inl ⟨rfl, by simp [chunkCalls, hc], by simp [processChunk, hc]⟩
  | cons cand rest =>
    exact Or.inr ⟨cand, rest, rfl, by simp [chunkCalls, hc], by simp [processChunk, hc]⟩

/-- Monotonicity of the chunk loop: dedup keys and invocations only
grow across a streamed response. -/
theorem processStream_mono (tools : List ToolDefinition) (gate : Option Gate) :
    ∀ (items : List StreamItem) (st st' : RespState),
      processStream tools gate st items = .ok st' →
      (∀ k ∈ st.processed, k ∈ st'.processed)
      ∧ (∀ fc ∈ st.invocations, fc ∈ st'.invocations) := by
  intro items
  induction items with
  | nil =>
    intro st st' h
    injection h with h
    subst h
    exact ⟨fun _ hk => hk, fun _ hk => hk⟩
  | cons it rest ih =>
    intro st st' h
    cases it with
    | error e =>
      simp only [processStream] at h
      exact Except.noConfusion h
    | ok c =>
      rw [processStream_cons_ok] at h
      cases hc : processChunk tools gate st c with
      | error e =>
        simp only [hc] at h
        exact Except.noConfusion h
      | ok st1 =>
        simp only [hc] at h
        obtain ⟨ih1, ih2⟩ := ih st1 st' h
        rcases processChunk_cases tools gate st c with ⟨_, _, heq⟩ | ⟨cand, rest2, _, _, heq⟩
        · rw [heq] at hc
          injection hc with hc
          subst hc
          exact ⟨ih1, ih2⟩
        · rw [heq] at hc
          have hm := processParts_mono tools gate cand.parts _ st1 hc
          exact ⟨fun k hk => ih1 k (hm.1 k hk), fun x hx => ih2 x (hm.2.1 x hx)⟩

/-- The chunk loop preserves the dedup invariant. -/
theorem processStream_keyInv (tools : List ToolDefinition) (gate : Option Gate) :
    ∀ (items : List StreamItem) (st st' : RespState),
      KeyInv st → processStream tools gate st items = .ok st' → KeyInv st' := by
  intro items
  induction items with
  | nil =>
    intro st st' hKI h
    injection h with h
    subst h
    exact hKI
  | cons it rest ih =>
    intro st st' hKI h
    cases it with
    | error e =>
      simp only [processStream] at h
      exact Except.noConfusion h
    | ok c =>
      rw [processStream_cons_ok] at h
      cases hc : processChunk tools gate st c with
      | error e =>
        simp only [hc] at h
        exact Except.noConfusion h
      | ok st1 =>
        simp only [hc] at h
        rcases processChunk_cases tools gate st c with ⟨_, _, heq⟩ | ⟨cand, rest2, _, _, heq⟩
        · rw [heq] at hc
          injection hc with hc
          subst hc
          exact ih _ st' hKI h
        · rw [heq] at hc
          have hKI1 : KeyInv { st with
              messages := st.messages ++ finishReasonMessages cand.finishReason,
              accumulatedParts := st.accumulatedParts ++ cand.parts } := hKI
          exact ih _ st' (processParts_keyInv tools gate cand.parts _ st1 hKI1 hc) h

/-- Every call of a streamed response leaves its dedup key recorded. -/
theorem processStream_seen (tools : List ToolDefinition) (gate : Option Gate) :
    ∀ (items : List StreamItem) (st st' : RespState),
      processStream tools gate st items = .ok st' →
      ∀ fc ∈ streamCalls items, callKey fc ∈ st'.processed := by
  intro items
  induction items with
  | nil =>
    intro st st' _ fc hfc
    exact absurd hfc (List.not_mem_nil fc)
  | cons it rest ih =>
    intro st st' h fc hfc
    cases it with
    | error e =>
      simp only [processStream] at h
      exact Except.noConfusion h
    | ok c =>
      rw [processStream_cons_ok] at h
      cases hc : processChunk tools gate st c with
      | error e =>
        simp only [hc] at h
        exact Except.noConfusion h
      | ok st1 =>
        simp only [hc] at h
        simp only [streamCalls] at hfc
        rcases List.mem_append.mp hfc with hhead | htail
        · rcases processChunk_cases tools gate st c with
            ⟨_, hcc, heq⟩ | ⟨cand, rest2, _, hcc, heq⟩
          · rw [hcc] at hhead
            exact absurd hhead (List.not_mem_nil fc)
          · rw [hcc] at hhead
            rw [heq] at hc
            have hkey := processParts_seen tools gate cand.parts _ st1 hc fc hhead
            exact (processStream_mono tools gate rest st1 st' h).1 _ hkey
        · exact ih st1 st' h fc htail

/-- Resolution of a recorded dedup key across a streamed response. -/
theorem processStream_resolve (tools : List ToolDefinition) (gate : Option Gate) :
    ∀ (items : List StreamItem) (st st' : RespState),
      processStream tools gate st items = .ok st' →
      ∀ k ∈ st'.processed,
        k ∈ st.processed
        ∨ ∃ fc, fc ∈ streamCalls items ∧ callKey fc = k
            ∧ (gateApprovesB gate fc = true →
               (lookupTool tools fc.name).isSome = true →
               fc ∈ st'.invocations) := by
  intro items
  induction items with
  | nil =>
    intro st st' h k hk
    injection h with h
    subst h
    exact Or.inl hk
  | cons it rest ih =>
    intro st st' h k hk
    cases it with
    | error e =>
      simp only [processStream] at h
      exact Except.noConfusion h
    | ok c =>
      rw [processStream_cons_ok] at h
      cases hc : processChunk tools gate st c with
      | error e =>
        simp only [hc] at h
        exact Except.noConfusion h
      | ok st1 =>
        simp only [hc] at h
        rcases ih st1 st' h k hk with h1 | ⟨fc, hfcmem, hkey, himp⟩
        · rcases processChunk_cases tools gate st c with
            ⟨_, _, heq⟩ | ⟨cand, rest2, _, hcc, heq⟩
          · rw [heq] at hc
            injection hc with hc
            subst hc
            exact Or.inl h1
          · rw [heq] at hc
            rcases processParts_resolve tools gate cand.parts _ st1 hc k h1 with
              h2 | ⟨fc, hfcmem, hkey, himp⟩
            · exact Or.inl h2
            · refine Or.inr ⟨fc, ?_, hkey, ?_⟩
              · simp only [streamCalls]
                rw [← hcc] at hfcmem
                exact List.mem_append_left _ hfcmem
              · intro happ hlook
                exact (processStream_mono tools gate rest st1 st' h).2 _ (himp happ hlook)
        · refine Or.inr ⟨fc, ?_, hkey, himp⟩
          simp only [streamCalls]
          exact List.mem_append_right _ hfcmem

/-- C4 counterexample: a chunk with zero candidates does NOT make the
streamed-response loop fail; the stream containing only that chunk is
processed to a normal completion with the state unchanged, so the claim
that ProcessMessage fails with a hard error on such a chunk is false. -/
theorem zero_candidates_chunk_skipped_cex :
    processStream demoTools none initRespState [Except.ok emptyChunk] = .ok initRespState
    ∧ turnAborts (processStream demoTools none initRespState [Except.ok emptyChunk]) = false :=
  ⟨rfl, rfl⟩

/-- C4 amended: a streamed chunk with zero candidates is skipped (the
chunk loop continues), leaving processing identical to the stream with
that chunk removed; it is not a hard error. -/
theorem zero_candidates_chunk_skipped (tools : List ToolDefinition) (gate : Option Gate)
    (st : RespState) (c : Chunk) (items : List StreamItem) (h : c.candidates = []) :
    processStream tools gate st (Except.ok c :: items) = processStream tools gate st items := by
  simp [processStream, processChunk, h]

/-- C4 witness: the amended theorem evaluated on a concrete empty-candidate chunk. -/
theorem zero_candidates_chunk_skipped_witness :
    processStream demoTools none initRespState [Except.ok emptyChunk] =
      processStream demoTools none initRespState [] :=
  zero_candidates_chunk_skipped demoTools none initRespState emptyChunk [] rfl

/-- C7 counterexample: TokenUsage.totalTokens does decrease across a
sequence of Agent operations: after recording 5 input tokens the total
is 5, and extending the sequence with ResetTokenUsage (also reached via
ClearConversation) drops it back to 0. -/
theorem token_total_reset_decreases_cex :
    (applyTokenOps initTokenUsage [TokenOp.recordInput 5]).totalTokens = 5
    ∧ (applyTokenOps initTokenUsage [TokenOp.recordInput 5, TokenOp.reset]).totalTokens = 0 :=
  ⟨rfl, rfl⟩

/-- C7 amended: after every sequence of TokenUsage mutations (the two
ProcessMessage increment sites and ResetTokenUsage), totalTokens equals
inputTokens plus outputTokens; and across every reset-free sequence the
total equals the starting total plus the sum of all recorded input and
output increments, hence never decreases. ResetTokenUsage zeroes the
counters and can decrease the total. -/
theorem token_usage_balance_and_increments (u : TokenUsage) (ops : List TokenOp)
    (hbal : u.totalTokens = u.inputTokens + u.outputTokens) :
    (applyTokenOps u ops).totalTokens =
      (applyTokenOps u ops).inputTokens + (applyTokenOps u ops).outputTokens
    ∧ ((∀ op ∈ ops, op ≠ TokenOp.reset) →
        (applyTokenOps u ops).totalTokens = u.totalTokens + opsIncrement ops
        ∧ u.totalTokens ≤ (applyTokenOps u ops).totalTokens) := by
  refine ⟨applyTokenOps_balance ops u hbal, fun hnr => ?_⟩
  have h := applyTokenOps_total_noReset ops u hnr
  exact ⟨h, by omega⟩

/-- C7 witness: the amended theorem evaluated on a concrete reset-free
sequence. -/
theorem token_usage_balance_and_increments_witness :
    ((applyTokenOps initTokenUsage [TokenOp.recordInput 3, TokenOp.recordOutput 4]).totalTokens =
        (applyTokenOps initTokenUsage [TokenOp.recordInput 3, TokenOp.recordOutput 4]).inputTokens +
          (applyTokenOps initTokenUsage [TokenOp.recordInput 3, TokenOp.recordOutput 4]).outputTokens)
    ∧ ((∀ op ∈ [TokenOp.recordInput 3, TokenOp.recordOutput 4], op ≠ TokenOp.reset) →
        (applyTokenOps initTokenUsage [TokenOp.recordInput 3, TokenOp.recordOutput 4]).totalTokens =
            initTokenUsage.totalTokens +
              opsIncrement [TokenOp.recordInput 3, TokenOp.recordOutput 4]
        ∧ initTokenUsage.totalTokens ≤
            (applyTokenOps initTokenUsage [TokenOp.recordInput 3, TokenOp.recordOutput 4]).totalTokens) :=
  token_usage_balance_and_increments initTokenUsage
    [TokenOp.recordInput 3, TokenOp.recordOutput 4] rfl

/-- C8 counterexample: with the tool-message queue at its capacity of
10 and the turn context live, the select of sendQueuedMessages (which
has no default case) blocks instead of dropping the event, while the
drop-on-full policy stated by the spec would drop it. -/
theorem full_queue_blocks_not_drops_cex :
    channelSend toolMessageChanCap (List.replicate 10 demoToolEvent) demoToolEvent false =
      SendOutcome.blocked
    ∧ specDropOnFullSend toolMessageChanCap (List.replicate 10 demoToolEvent) demoToolEvent =
      SpecSendOutcome.dropped := by
  constructor <;> rfl

/-- C8 amended: for each of the three bounded queues (text chunk, tool
message, thought message), an event arriving when the destination queue
is full is NOT dropped: the sending select blocks the background
goroutine while the context is live, and abandons the batch when the
context is done; the spec-modelled drop-on-full sender diverges by
dropping the event. -/
theorem full_queue_send_blocks {α : Type} (qc qt qth : List α) (x : α)
    (hc : streamChunkChanCap ≤ qc.length) (ht : toolMessageChanCap ≤ qt.length)
    (hth : thoughtMessageChanCap ≤ qth.length) :
    (channelSend streamChunkChanCap qc x false = SendOutcome.blocked
      ∧ channelSend toolMessageChanCap qt x false = SendOutcome.blocked
      ∧ channelSend thoughtMessageChanCap qth x false = SendOutcome.blocked)
    ∧ (channelSend streamChunkChanCap qc x true = SendOutcome.ctxAborted
      ∧ channelSend toolMessageChanCap qt x true = SendOutcome.ctxAborted
      ∧ channelSend thoughtMessageChanCap qth x true = SendOutcome.ctxAborted)
    ∧ (specDropOnFullSend streamChunkChanCap qc x = SpecSendOutcome.dropped
      ∧ specDropOnFullSend toolMessageChanCap qt x = SpecSendOutcome.dropped
      ∧ specDropOnFullSend thoughtMessageChanCap qth x = SpecSendOutcome.dropped) := by
  have h1 : ¬ qc.length < streamChunkChanCap := by omega
  have h2 : ¬ qt.length < toolMessageChanCap := by omega
  have h3 : ¬ qth.length < thoughtMessageChanCap := by omega
  simp [channelSend, specDropOnFullSend, h1, h2, h3]

/-- C8 witness: the amended theorem evaluated on concrete full queues. -/
theorem full_queue_send_blocks_witness :
    (channelSend streamChunkChanCap (List.replicate 100 demoToolEvent) demoToolEvent false =
        SendOutcome.blocked
      ∧ channelSend toolMessageChanCap (List.replicate 10 demoToolEvent) demoToolEvent false =
        SendOutcome.blocked
      ∧ channelSend thoughtMessageChanCap (List.replicate 10 demoToolEvent) demoToolEvent false =
        SendOutcome.blocked)
    ∧ (channelSend streamChunkChanCap (List.replicate 100 demoToolEvent) demoToolEvent true =
        SendOutcome.ctxAborted
      ∧ channelSend toolMessageChanCap (List.replicate 10 demoToolEvent) demoToolEvent true =
        SendOutcome.ctxAborted
      ∧ channelSend thoughtMessageChanCap (List.replicate 10 demoToolEvent) demoToolEvent true =
        SendOutcome.ctxAborted)
    ∧ (specDropOnFullSend streamChunkChanCap (List.replicate 100 demoToolEvent) demoToolEvent =
        SpecSendOutcome.dropped
      ∧ specDropOnFullSend toolMessageChanCap (List.replicate 10 demoToolEvent) demoToolEvent =
        SpecSendOutcome.dropped
      ∧ specDropOnFullSend thoughtMessageChanCap (List.replicate 10 demoToolEvent) demoToolEvent =
        SpecSendOutcome.dropped) :=
  full_queue_send_blocks (List.replicate 100 demoToolEvent) (List.replicate 10 demoToolEvent)
    (List.replicate 10 demoToolEvent) demoToolEvent (by decide) (by decide) (by decide)

/-- C9 counterexample: applying handleStreamComplete twice with the
same terminal payload does NOT leave the same message list when the
payload carries an error-flagged agent message: the error entry is
appended on each call. -/
theorem stream_complete_not_idempotent_cex :
    handleStreamComplete (handleStreamComplete demoUiModel demoErrorPayload) demoErrorPayload ≠
      handleStreamComplete demoUiModel demoErrorPayload := by
  decide

/-- C9 amended: handleStreamComplete is idempotent whenever the
terminal payload contains no error-flagged agent message (stream
chunks, tool messages, thoughts and non-error agent messages are all
skipped, and the streaming message is finalized at most once); a
payload with an error-flagged agent message is re-appended by a second
call and breaks idempotence. -/
theorem stream_complete_idempotent_without_error_payload (m : UiModel)
    (payload : List EngineMessage)
    (h : ∀ am ∈ payload, ¬(am.type = MessageType.agentMessage ∧ am.isError = true)) :
    handleStreamComplete (handleStreamComplete m payload) payload =
      handleStreamComplete m payload := by
  have hfm : payload.filterMap completionEntryOfAgent = [] := by
    rw [List.filterMap_eq_nil_iff]
    intro am ham
    have hna := h am ham
    unfold completionEntryOfAgent
    cases htype : am.type with
    | agentMessage =>
      have hE : am.isError = false := by
        cases hE : am.isError with
        | true => exact absurd ⟨htype, hE⟩ hna
        | false => rfl
      simp [hE]
    | userMessage => rfl
    | toolMessage => rfl
    | streamChunk => rfl
    | thoughtMessage => rfl
  cases m with
  | mk msgs sm idx intr spin =>
    cases sm <;> simp [handleStreamComplete, hfm]

/-- C9 witness: the amended theorem evaluated on a payload of already
processed stream chunks and tool messages. -/
theorem stream_complete_idempotent_without_error_payload_witness :
    handleStreamComplete
        (handleStreamComplete demoUiModel
          [{ type := MessageType.streamChunk, content := "hi", isStream := true },
           demoToolEvent])
        [{ type := MessageType.streamChunk, content := "hi", isStream := true },
         demoToolEvent] =
      handleStreamComplete demoUiModel
        [{ type := MessageType.streamChunk, content := "hi", isStream := true },
         demoToolEvent] :=
  stream_complete_idempotent_without_error_payload demoUiModel
    [{ type := MessageType.streamChunk, content := "hi", isStream := true }, demoToolEvent]
    (by decide)

/-- C10: a preferences file that exists and parses to the all-zero
struct (empty selected_model, confirmation false, thinking off) is
loaded with RequireToolConfirmation forced to true, so saving such
preferences and loading them back does not round-trip. -/
theorem load_forces_tool_confirmation (p : UserPreferences)
    (h1 : p.selectedModel = "") (h2 : p.requireToolConfirmation = false)
    (h3 : p.enableThinkingMode = false) :
    (normalizeLoadedPreferences p).requireToolConfirmation = true
    ∧ loadAfterSave p ≠ p := by
  have hcond : p.requireToolConfirmation = false ∧ p.selectedModel = ""
      ∧ p.enableThinkingMode = false := ⟨h2, h1, h3⟩
  constructor
  · simp [normalizeLoadedPreferences, if_pos hcond]
  · intro heq
    have hr := congrArg UserPreferences.requireToolConfirmation heq
    simp [loadAfterSave, normalizeLoadedPreferences, if_pos hcond] at hr
    rw [h2] at hr
    exact Bool.noConfusion hr

/-- C10 witness: the theorem evaluated at the concrete all-default
preference value with confirmation disabled. -/
theorem load_forces_tool_confirmation_witness :
    (normalizeLoadedPreferences
        { selectedModel := "", requireToolConfirmation := false,
          enableThinkingMode := false }).requireToolConfirmation = true
    ∧ loadAfterSave
        { selectedModel := "", requireToolConfirmation := false,
          enableThinkingMode := false } ≠
      ({ selectedModel := "", requireToolConfirmation := false,
         enableThinkingMode := false } : UserPreferences) :=
  load_forces_tool_confirmation _ rfl rfl rfl

/-- C1: within one streamed response of a ProcessMessage turn, a
function call whose (name, arguments) pair appears in any number of
fragments has its tool function invoked exactly once, provided the call
resolves in the registry, the gate approves it (or no gate is set), and
the dedup keys of the response's calls identify their (name, arguments)
pairs. -/
theorem toolCall_dedup_invoked_exactly_once (tools : List ToolDefinition)
    (gate : Option Gate) (items : List StreamItem) (st' : RespState)
    (hrun : processStream tools gate initRespState items = .ok st')
    (hinj : ∀ a ∈ streamCalls items, ∀ b ∈ streamCalls items, callKey a = callKey b → a = b)
    (fc : FunctionCall) (hin : fc ∈ streamCalls items)
    (happrove : gateApprovesB gate fc = true)
    (hreg : (lookupTool tools fc.name).isSome = true) :
    st'.invocations.count fc = 1 := by
  have hKI : KeyInv st' :=
    processStream_keyInv tools gate items initRespState st'
      ⟨fun x hx => absurd hx (List.not_mem_nil x), List.nodup_nil⟩ hrun
  have hle : st'.invocations.count fc ≤ 1 :=
    List.nodup_iff_count_le_one.mp (List.Nodup.of_map callKey hKI.2) fc
  have hseen : callKey fc ∈ st'.processed :=
    processStream_seen tools gate items initRespState st' hrun fc hin
  rcases processStream_resolve tools gate items initRespState st' hrun (callKey fc) hseen with
    habs | ⟨fc0, hfc0mem, hkey0, himp⟩
  · exact absurd habs (List.not_mem_nil _)
  · have he : fc0 = fc := hinj fc0 hfc0mem fc hin hkey0
    subst he
    have hmem : fc0 ∈ st'.invocations := himp happrove hreg
    have hge : 0 < st'.invocations.count fc0 := List.count_pos_iff.mpr hmem
    omega

/-- C1 witness: the theorem evaluated on a streamed response repeating
the identical call across two fragments, with no confirmation gate. -/
theorem toolCall_dedup_invoked_exactly_once_witness :
    ((processStream demoTools none initRespState demoRepeatItems).toOption.getD
        initRespState).invocations.count demoFc = 1 :=
  toolCall_dedup_invoked_exactly_once demoTools none demoRepeatItems
    ((processStream demoTools none initRespState demoRepeatItems).toOption.getD initRespState)
    rfl (by decide) demoFc (by decide) rfl rfl

/-- C2: for a fresh function-call part reaching the gate, a denial
leaves the invocation log untouched (the tool function is never
invoked), records the dedup key, emits the error-flagged rejection tool
message, and appends the rejection FunctionResponse to the pending tool
results, which the round finalization folds back into the conversation
as a user block. -/
theorem denied_call_not_invoked_still_responded (tools : List ToolDefinition) (g : Gate)
    (st : RespState) (p : Part) (fc : FunctionCall)
    (hthought : ¬(p.thought = true ∧ p.text ≠ ""))
    (hfc : p.functionCall = some fc)
    (hkey : callKey fc ∉ st.processed)
    (hg : g fc = ConfirmResult.ok false) :
    processPart tools (some g) st p =
      .ok { st with
            processed := st.processed ++ [callKey fc],
            messages := st.messages ++ [rejectionMessage fc],
            toolResults := st.toolResults ++ [rejectionResponse fc] }
    ∧ (rejectionMessage fc).type = MessageType.toolMessage
    ∧ (rejectionMessage fc).isError = true
    ∧ (rejectionResponse fc).functionResponse =
        some { name := fc.name, body := FuncResponseBody.errorVal "User denied tool execution" }
    ∧ ∀ conv : List Content,
        ({ role := "user", parts := st.toolResults ++ [rejectionResponse fc] } : Content) ∈
          (finishRound conv { st with
            processed := st.processed ++ [callKey fc],
            messages := st.messages ++ [rejectionMessage fc],
            toolResults := st.toolResults ++ [rejectionResponse fc] }).1 := by
  refine ⟨?_, rfl, rfl, rfl, ?_⟩
  · simp [processPart, hfc, hkey, hthought, hg, rejectCall]
  · intro conv
    simp only [finishRound]
    rw [if_pos (by simp)]
    exact List.mem_append_right _ (List.mem_singleton_self _)

/-- C2 witness: the theorem evaluated on a concrete denied call. -/
theorem denied_call_not_invoked_still_responded_witness :
    processPart demoTools (some (fun _ => ConfirmResult.ok false)) initRespState demoCallPart =
      .ok { initRespState with
            processed := initRespState.processed ++ [callKey demoFc],
            messages := initRespState.messages ++ [rejectionMessage demoFc],
            toolResults := initRespState.toolResults ++ [rejectionResponse demoFc] } :=
  (denied_call_not_invoked_still_responded demoTools _ initRespState demoCallPart demoFc
    (by decide) rfl (by decide) rfl).1

/-- C3 counterexample: with the UI confirmation callback in its
timed-out state, processing a streamed response holding a function call
ABORTS the turn with a confirmation error instead of treating the call
as denied and continuing to completion, so the claim that the turn
continues is false. -/
theorem confirmation_timeout_aborts_turn_cex :
    processStream demoTools (some timeoutGate) initRespState demoCallItems =
      .error "confirmation error: timeout waiting for user confirmation"
    ∧ turnAborts (processStream demoTools (some timeoutGate) initRespState demoCallItems) =
      true :=
  ⟨rfl, rfl⟩

/-- C3 amended: when the 30-second confirmation wait elapses, the UI
callback returns denial together with a timeout error, and the engine
treats the error as fatal for the turn: the part step and the whole
part loop return the confirmation error (the tool is not invoked, no
denial tool-result is recorded, and the background goroutine then
delivers a single error completion event, so no deadlock occurs). -/
theorem confirmation_timeout_error_aborts_turn (tools : List ToolDefinition) (g : Gate)
    (st : RespState) (p : Part) (fc : FunctionCall)
    (hthought : ¬(p.thought = true ∧ p.text ≠ ""))
    (hfc : p.functionCall = some fc)
    (hkey : callKey fc ∉ st.processed)
    (hg : g fc = confirmationTimeoutResult) :
    processPart tools (some g) st p =
      .error "confirmation error: timeout waiting for user confirmation"
    ∧ ∀ ps : List Part,
        processParts tools (some g) st (p :: ps) =
          .error "confirmation error: timeout waiting for user confirmation" := by
  have h1 : processPart tools (some g) st p =
      .error "confirmation error: timeout waiting for user confirmation" := by
    simp [processPart, hfc, hkey, hthought, hg, confirmationTimeoutResult]
  exact ⟨h1, fun ps => by rw [processParts_cons, h1]⟩

/-- C3 witness: the amended theorem evaluated on a concrete call with
the timed-out gate. -/
theorem confirmation_timeout_error_aborts_turn_witness :
    processPart demoTools (some timeoutGate) initRespState demoCallPart =
      .error "confirmation error: timeout waiting for user confirmation" :=
  (confirmation_timeout_error_aborts_turn demoTools timeoutGate initRespState demoCallPart
    demoFc (by decide) rfl (by decide) rfl).1

/-- C5 counterexample: a thought part is excluded from the visible
answer but IS retained in the accumulated parts, and the round
finalization appends it inside the model block of the conversation,
which is exactly what is sent back to the remote model on the next loop
iteration; so the claim that thought parts are not included in the
content sent back to the model is false. -/
theorem thought_part_sent_back_cex :
    demoThoughtResult.accumulatedText = ""
    ∧ demoThoughtResult.messages = [mkThoughtMessage "t"]
    ∧ demoThoughtResult.accumulatedParts = [demoThoughtPart]
    ∧ (finishRound [] demoThoughtResult).1 =
        [{ role := "model", parts := [demoThoughtPart] }] :=
  ⟨rfl, rfl, rfl, rfl⟩

/-- C5 amended: a thought part with non-empty text is surfaced solely
as a thought message (the visible text accumulator, the tool results
and the invocation log are untouched), but every processed chunk
appends ALL its first candidate's parts, thought parts included, to
accumulatedParts, and the round finalization places accumulatedParts in
the model block appended to the conversation, which is sent back to the
remote model on subsequent loop iterations. -/
theorem thought_display_only_but_accumulated (tools : List ToolDefinition)
    (gate : Option Gate) (st : RespState) (p : Part)
    (h1 : p.thought = true) (h2 : p.text ≠ "") :
    processPart tools gate st p =
      .ok { st with messages := st.messages ++ [mkThoughtMessage p.text] }
    ∧ (∀ (c : Chunk) (cand : Candidate) (rest : List Candidate) (st' : RespState),
        c.candidates = cand :: rest →
        processChunk tools gate st c = .ok st' →
        st'.accumulatedParts = st.accumulatedParts ++ cand.parts)
    ∧ (∀ (conv : List Content) (st0 : RespState),
        ({ role := "model", parts := st0.accumulatedParts } : Content) ∈
          (finishRound conv st0).1) := by
  refine ⟨?_, ?_, ?_⟩
  · unfold processPart
    rw [if_pos ⟨h1, h2⟩]
  · intro c cand rest st' hcand hchunk
    rcases processChunk_cases tools gate st c with ⟨hnil, _, _⟩ | ⟨cand2, rest2, hcand2, _, heq⟩
    · rw [hnil] at hcand
      exact List.noConfusion hcand
    · rw [hcand2] at hcand
      injection hcand with he1 he2
      rw [heq] at hchunk
      have hacc := (processParts_mono tools gate cand2.parts _ st' hchunk).2.2
      rw [hacc, he1]
  · intro conv st0
    simp only [finishRound]
    split
    · exact List.mem_append_left _ (List.mem_append_right _ (List.mem_singleton_self _))
    · exact List.mem_append_right _ (List.mem_singleton_self _)

/-- C5 witness: the amended theorem evaluated on a concrete thought
part and the chunk carrying it. -/
theorem thought_display_only_but_accumulated_witness :
    processPart demoTools none initRespState demoThoughtPart =
      .ok { initRespState with
            messages := initRespState.messages ++ [mkThoughtMessage "t"] }
    ∧ demoThoughtResult.accumulatedParts =
        initRespState.accumulatedParts ++ [demoThoughtPart] :=
  ⟨(thought_display_only_but_accumulated demoTools none initRespState demoThoughtPart rfl
      (by decide)).1,
   (thought_display_only_but_accumulated demoTools none initRespState demoThoughtPart rfl
      (by decide)).2.1 demoThoughtChunk { parts := [demoThoughtPart] } [] demoThoughtResult
      rfl rfl⟩

/-- The shared insertion step of the tool and thought handlers: with a
tracked streaming index i inside the transcript, the new entry lands at
position i, the streaming message moves to position i+1 where the
advanced index keeps pointing at it, entries before i stay in place,
and entries from i on shift one place right. -/
theorem insertTranscript_inserts_before (m : UiModel) (entry : TranscriptMessage) (i : Nat)
    (hidx : m.streamingMsgIndex = (i : Int)) (hlen : i < m.messages.length) :
    (insertTranscript m entry).messages =
        m.messages.take i ++ [entry] ++ m.messages.drop i
    ∧ (insertTranscript m entry).streamingMsgIndex = (i : Int) + 1
    ∧ (insertTranscript m entry).messages[i]? = some entry
    ∧ (insertTranscript m entry).messages[i + 1]? = m.messages[i]?
    ∧ (∀ j, j < i → (insertTranscript m entry).messages[j]? = m.messages[j]?)
    ∧ (∀ j, i ≤ j → (insertTranscript m entry).messages[j + 1]? = m.messages[j]?) := by
  have hne : m.streamingMsgIndex ≠ -1 := by
    rw [hidx]
    omega
  have htn : m.streamingMsgIndex.toNat = i := by
    rw [hidx]
    simp
  have htake : (m.messages.take i).length = i := by
    simp [Nat.le_of_lt hlen]
  have hXlen : (m.messages.take i ++ [entry]).length = i + 1 := by
    simp [htake]
  have hmsgs : (insertTranscript m entry).messages =
      m.messages.take i ++ [entry] ++ m.messages.drop i := by
    simp only [insertTranscript]
    rw [if_pos hne, htn]
  have hindex : (insertTranscript m entry).streamingMsgIndex = (i : Int) + 1 := by
    simp only [insertTranscript]
    rw [if_pos hne, hidx]
  refine ⟨hmsgs, hindex, ?_, ?_, ?_, ?_⟩
  · rw [hmsgs, List.getElem?_append_left (by rw [hXlen]; omega),
      List.getElem?_append_right (by rw [htake])]
    simp [htake]
  · rw [hmsgs, List.getElem?_append_right (by rw [hXlen]), hXlen, List.getElem?_drop]
    have he : i + (i + 1 - (i + 1)) = i := by omega
    rw [he]
  · intro j hj
    rw [hmsgs, List.getElem?_append_left (by rw [hXlen]; omega),
      List.getElem?_append_left (by rw [htake]; omega)]
    exact List.getElem?_take_of_lt hj
  · intro j hj
    rw [hmsgs, List.getElem?_append_right (by rw [hXlen]; omega), hXlen,
      List.getElem?_drop]
    have he : i + (j + 1 - (i + 1)) = j := by omega
    rw [he]

/-- C6: while a streaming agent message is in progress at tracked index
i, an incoming tool event and an incoming thought event are each
inserted strictly before the streaming message: the new transcript
entry lands at position i, the tracked index is advanced to i+1 where
the streaming message now sits, entries before i are unchanged and
entries from i on are shifted one place right, so tool/thought output
never appears after text that was streamed later. -/
theorem tool_thought_inserted_before_streaming (m : UiModel) (msg : EngineMessage) (i : Nat)
    (hidx : m.streamingMsgIndex = (i : Int)) (hlen : i < m.messages.length) :
    ((handleToolMessage m msg).messages =
        m.messages.take i ++ [toolEntry msg] ++ m.messages.drop i
      ∧ (handleToolMessage m msg).streamingMsgIndex = (i : Int) + 1
      ∧ (handleToolMessage m msg).messages[i]? = some (toolEntry msg)
      ∧ (handleToolMessage m msg).messages[i + 1]? = m.messages[i]?
      ∧ (∀ j, j < i → (handleToolMessage m msg).messages[j]? = m.messages[j]?)
      ∧ (∀ j, i ≤ j → (handleToolMessage m msg).messages[j + 1]? = m.messages[j]?))
    ∧ ((handleThoughtMessage m msg).messages =
        m.messages.take i ++ [thoughtEntry msg] ++ m.messages.drop i
      ∧ (handleThoughtMessage m msg).streamingMsgIndex = (i : Int) + 1
      ∧ (handleThoughtMessage m msg).messages[i]? = some (thoughtEntry msg)
      ∧ (handleThoughtMessage m msg).messages[i + 1]? = m.messages[i]?
      ∧ (∀ j, j < i → (handleThoughtMessage m msg).messages[j]? = m.messages[j]?)
      ∧ (∀ j, i ≤ j → (handleThoughtMessage m msg).messages[j + 1]? = m.messages[j]?)) :=
  ⟨insertTranscript_inserts_before m (toolEntry msg) i hidx hlen,
   insertTranscript_inserts_before m (thoughtEntry msg) i hidx hlen⟩

/-- C6 witness: the theorem evaluated on a concrete model streaming at
index 1 with an incoming tool event and an incoming thought event. -/
theorem tool_thought_inserted_before_streaming_witness :
    (handleToolMessage demoStreamingModel demoToolEvent).messages =
        demoStreamingModel.messages.take 1 ++ [toolEntry demoToolEvent] ++
          demoStreamingModel.messages.drop 1
    ∧ (handleToolMessage demoStreamingModel demoToolEvent).streamingMsgIndex = (1 : Int) + 1
    ∧ (handleThoughtMessage demoStreamingModel demoToolEvent).messages =
        demoStreamingModel.messages.take 1 ++ [thoughtEntry demoToolEvent] ++
          demoStreamingModel.messages.drop 1 :=
  ⟨(tool_thought_inserted_before_streaming demoStreamingModel demoToolEvent 1 rfl
      (by decide)).1.1,
   (tool_thought_inserted_before_streaming demoStreamingModel demoToolEvent 1 rfl
      (by decide)).1.2.1,
   (tool_thought_inserted_before_streaming demoStreamingModel demoToolEvent 1 rfl
      (by decide)).2.1⟩

end CodeAgent
